import Mathlib

/-!
Verification of `src/signature_builder.rs` (roogle-index-prototype): the
rustdoc-JSON type model, its serde decoder, and the signature renderer.

The embedding is shallow.  `Json` models a `serde_json::Value` already parsed
from text (so objects carry unique keys, as `serde_json`'s `Map` guarantees;
numbers are modelled as integers, the only numeric shape rustdoc JSON uses).
The serde-derived deserializers are translated function by function:
`#[serde(untagged)]` enums become an ordered cascade of per-variant structural
decoders over the buffered value, each returning `Option` (`none` = that
variant's `Deserialize` reports an error), taking the first success, exactly
as serde's generated code tries variants in declaration order.  A derived
struct deserializes from a JSON object (a required field must be present
with the right shape, an `Option` field may be missing or `null`, a
`#[serde(default)]` `Vec` field may be missing, unknown fields are ignored)
and also, positionally, from a JSON array: inside untagged buffering,
serde's content deserializer forwards a buffered sequence to the struct's
derived `visit_seq`, which takes the fields in declaration order, errors on
a missing non-defaulted field, and rejects trailing extra elements.  The
struct *variants* of the untagged enums themselves have no such sequence
form and accept only maps.
-/

/-- A JSON value, as `serde_json::Value` holds it after parsing: object keys
are unique and kept as an association list, numbers are integers. -/
inductive Json where
  | null
  | bool (b : Bool)
  | num (n : Int)
  | str (s : String)
  | arr (elems : List Json)
  | obj (fields : List (String × Json))

/-- Field lookup in a JSON object's entry list (first occurrence; keys are
unique in a `serde_json` map, so this is the map lookup). -/
def getField (fs : List (String × Json)) (k : String) : Option Json :=
  match fs with
  | [] => none
  | (k₂, v) :: rest => if k₂ = k then some v else getField rest k

mutual

/-- Structural size of a JSON value, used as fuel for the decoders. -/
def jsize : Json → Nat
  | .null => 1
  | .bool _ => 1
  | .num _ => 1
  | .str _ => 1
  | .arr xs => 1 + jsizeList xs
  | .obj fs => 1 + jsizeFields fs

/-- Structural size of a JSON array's element list. -/
def jsizeList : List Json → Nat
  | [] => 1
  | x :: rest => 1 + jsize x + jsizeList rest

/-- Structural size of a JSON object's entry list. -/
def jsizeFields : List (String × Json) → Nat
  | [] => 1
  | (_, v) :: rest => 2 + jsize v + jsizeFields rest

end

/-- Joining a list of strings with a separator, with `Vec::join`'s semantics
(no separator for the empty and singleton lists). -/
def joinSep (sep : String) : List String → String
  | [] => ""
  | [s] => s
  | s :: rest => s ++ sep ++ joinSep sep rest

/-- One hexadecimal digit, lower-case, as `serde_json` prints `\u` escapes. -/
def hexDigit (n : Nat) : Char :=
  if n < 10 then Char.ofNat (48 + n) else Char.ofNat (97 + n - 10)

/-- Escaping of one character inside a JSON string literal, following
`serde_json`'s writer (quote, backslash, the short control escapes, and
`\u00XX` for the remaining control characters). -/
def escapeChar (c : Char) : String :=
  if c = '"' then "\\\""
  else if c = '\\' then "\\\\"
  else if c = '\x08' then "\\b"
  else if c = '\x0c' then "\\f"
  else if c = '\n' then "\\n"
  else if c = '\r' then "\\r"
  else if c = '\t' then "\\t"
  else if c.toNat < 32 then
    "\\u00" ++ String.singleton (hexDigit (c.toNat / 16)) ++ String.singleton (hexDigit (c.toNat % 16))
  else String.singleton c

/-- A JSON string literal as `serde_json` prints it. -/
def escapeString (s : String) : String :=
  "\"" ++ String.join (s.data.map escapeChar) ++ "\""

mutual

/-- Compact serialization of a JSON value: the `Display` implementation of
`serde_json::Value`, which `format!("{}", val)` uses in `type_to_string`. -/
def jsonToString (j : Json) : String :=
  match j with
  | .null => "null"
  | .bool true => "true"
  | .bool false => "false"
  | .num n => toString n
  | .str s => escapeString s
  | .arr xs => "[" ++ joinSep "," (jsonArrStrings xs) ++ "]"
  | .obj fs => "\x7b" ++ joinSep "," (jsonObjStrings fs) ++ "\x7d"

/-- Renderings of the elements of a JSON array, in order. -/
def jsonArrStrings (xs : List Json) : List String :=
  match xs with
  | [] => []
  | x :: rest => jsonToString x :: jsonArrStrings rest

/-- Renderings of the `"key":value` members of a JSON object, in order. -/
def jsonObjStrings (fs : List (String × Json)) : List String :=
  match fs with
  | [] => []
  | (k, v) :: rest => (escapeString k ++ ":" ++ jsonToString v) :: jsonObjStrings rest

end

mutual

/-- The rustdoc-JSON type expression, `enum Type` of `signature_builder.rs`.
The Rust wrapper structs `BorrowedRefType` (fields `is_mutable`, `lifetime`,
`inner_type`), `ResolvedPath` (fields `name`, `args`) and
`AngleBracketedArgs` (fields `args`, `constraints`) are inlined as named
constructor arguments; `Type` itself is renamed `Ty` because `Type` is a
sort in Lean.  Variants appear in the source's declaration order, which is
the order serde's untagged decoder tries them in. -/
inductive Ty where
  | borrowedRef (is_mutable : Bool) (lifetime : Option String) (inner_type : Ty)
  | resolvedPath (name : String) (args : Option GenericArgs)
  | generic (generic : String)
  | primitive (primitive : String)
  | tuple (tuple : List Ty)
  | slice (slice : Ty)
  | other (val : Json)

/-- The `GenericArgs` untagged enum: only the angle-bracketed style is
modelled, with the `AngleBracketedArgs` struct inlined. -/
inductive GenericArgs where
  | angleBracketed (args : List GenericArg) (constraints : List String)

/-- A generic argument; the source restricts it to the type case. -/
inductive GenericArg where
  | type (t : Ty)

end

/-- The `FunctionSig` struct: parameter list, optional return type, and the
C-variadic flag. -/
structure FunctionSig where
  inputs : List (String × Ty)
  output : Option Ty
  is_c_variadic : Bool

mutual

/-- The renderer `type_to_string` of `signature_builder.rs`, variant by
variant. -/
def type_to_string (ty : Ty) : String :=
  match ty with
  | .borrowedRef m lt inner =>
    "&" ++ (if m then "mut " else "") ++
      (match lt with
       | some l => l ++ " "
       | none => "") ++ type_to_string inner
  | .resolvedPath n args =>
    (match args with
     | some a => n ++ generic_args_to_string a
     | none => n)
  | .generic g => g
  | .primitive p => p
  | .tuple ts => "(" ++ joinSep ", " (typeStrings ts) ++ ")"
  | .slice s => "[" ++ type_to_string s ++ "]"
  | .other v => "/* unknown: " ++ jsonToString v ++ " */"

/-- Renderings of a list of types, in order (`tuple.iter().map(...)`). -/
def typeStrings (ts : List Ty) : List String :=
  match ts with
  | [] => []
  | t :: rest => type_to_string t :: typeStrings rest

/-- The renderer `generic_args_to_string`: empty argument list renders as the
empty string rather than producing a dangling `<>`. -/
def generic_args_to_string (a : GenericArgs) : String :=
  match a with
  | .angleBracketed args _ =>
    if args.isEmpty then ""
    else "<" ++ joinSep ", " (genericArgStrings args) ++ ">"

/-- Renderings of a list of generic arguments, in order. -/
def genericArgStrings (args : List GenericArg) : List String :=
  match args with
  | [] => []
  | .type t :: rest => type_to_string t :: genericArgStrings rest

end

/-- The renderer `function_sig_to_string`: parameter list in input order,
then the return type unless it is absent or renders as the unit `()`. -/
def function_sig_to_string (name : String) (sig : FunctionSig) : String :=
  let params := sig.inputs.map (fun p => p.1 ++ ": " ++ type_to_string p.2)
  let result := "fn " ++ name ++ "(" ++ joinSep ", " params ++ ")"
  match sig.output with
  | some out_ty =>
    let out_str := type_to_string out_ty
    if out_str ≠ "()" then result ++ " -> " ++ out_str else result
  | none => result

/-- Deserialization of a Rust `String` field value. -/
def asString : Json → Option String
  | .str s => some s
  | _ => none

/-- Deserialization of a `Vec<String>` (the `constraints` field's element
type): a JSON array whose elements are all strings. -/
def decodeStringList : Json → Option (List String)
  | .arr xs => xs.mapM asString
  | _ => none

/-- Deserialization of the `#[serde(default)] constraints: Vec<String>`
field of `AngleBracketedArgs`: a missing field defaults to the empty list,
a present field must be an array of strings. -/
def decodeConstraints (ks : List (String × Json)) : Option (List String) :=
  match getField ks "constraints" with
  | none => some []
  | some v => decodeStringList v

/-- Deserialization of an `Option<String>` field (serde treats a missing
field and an explicit `null` both as `None`). -/
def decodeOptStringField (fs : List (String × Json)) (k : String) : Option (Option String) :=
  match getField fs k with
  | none => some none
  | some .null => some none
  | some (.str s) => some (some s)
  | some _ => none

/-- Deserialization of a present `Option<String>` value (the positional
case of a struct's `visit_seq`): `null` gives `None`, a string gives
`Some`, anything else is an error. -/
def decodeOptString : Json → Option (Option String)
  | .null => some none
  | .str s => some (some s)
  | _ => none

/-- The `Generic` arm of the untagged `Type` decoder: an object whose
`generic` field is a string. -/
def tryGeneric (j : Json) : Option Ty :=
  match j with
  | .obj fs =>
    match getField fs "generic" with
    | some (.str s) => some (Ty.generic s)
    | _ => none
  | _ => none

/-- The `Primitive` arm of the untagged `Type` decoder: an object whose
`primitive` field is a string. -/
def tryPrimitive (j : Json) : Option Ty :=
  match j with
  | .obj fs =>
    match getField fs "primitive" with
    | some (.str s) => some (Ty.primitive s)
    | _ => none
  | _ => none

/-!
The serde-derived decoder of the untagged `enum Type` and its companion
types.  serde's generated code tries the variants in declaration order over
the buffered value and takes the first whose `Deserialize` succeeds; `none`
models a variant (or struct) whose deserialization reports an error.  The
recursion of the source (a `Type` inside `BorrowedRefType`, `GenericArg`,
`Vec<Type>`, ...) descends through values found by field lookup, so the
Lean functions recurse structurally on a fuel counter (the standard
totality device); `decode_fuel_stable` below shows the results are
independent of the fuel once it is at least the value's size, and the
fuel-free wrappers `decodeType`, `tryBorrowedRef`, ... with their equations
`decodeType_eq`, `tryBorrowedRef_eq`, ... recover the source's shape
exactly.
-/

mutual

/-- Fueled decoder of the untagged `enum Type`: the variant cascade in
declaration order, ending in the infallible `Other(Value)` catch-all. -/
def decodeTypeF : Nat → Json → Option Ty
  | 0, _ => none
  | f + 1, j =>
    match tryBorrowedRefF f j with
    | some t => some t
    | none =>
      match tryResolvedPathF f j with
      | some t => some t
      | none =>
        match tryGeneric j with
        | some t => some t
        | none =>
          match tryPrimitive j with
          | some t => some t
          | none =>
            match tryTupleF f j with
            | some t => some t
            | none =>
              match trySliceF f j with
              | some t => some t
              | none => some (Ty.other j)

/-- Fueled `BorrowedRef` arm: an object whose `borrowed_ref` field
deserializes as a `BorrowedRefType`. -/
def tryBorrowedRefF : Nat → Json → Option Ty
  | 0, _ => none
  | f + 1, j =>
    match j with
    | .obj fs =>
      match getField fs "borrowed_ref" with
      | some inner => decodeBorrowedRefTypeF f inner
      | none => none
    | _ => none

/-- Fueled deserializer of the struct `BorrowedRefType`: required bool
field `is_mutable`, optional string field `lifetime`, required field
`type` holding a `Type`; from a map by key, or from a sequence of exactly
three elements positionally (the derived `visit_seq`). -/
def decodeBorrowedRefTypeF : Nat → Json → Option Ty
  | 0, _ => none
  | f + 1, j =>
    match j with
    | .obj gs =>
      match getField gs "is_mutable" with
      | some (.bool m) =>
        match decodeOptStringField gs "lifetime" with
        | some lt =>
          match getField gs "type" with
          | some v =>
            match decodeTypeF f v with
            | some t => some (Ty.borrowedRef m lt t)
            | none => none
          | none => none
        | none => none
      | _ => none
    | .arr [bv, ltv, tv] =>
      match bv with
      | .bool m =>
        match decodeOptString ltv with
        | some lt =>
          match decodeTypeF f tv with
          | some t => some (Ty.borrowedRef m lt t)
          | none => none
        | none => none
      | _ => none
    | _ => none

/-- Fueled `ResolvedPath` arm: an object whose `resolved_path` field
deserializes as a `ResolvedPath` struct. -/
def tryResolvedPathF : Nat → Json → Option Ty
  | 0, _ => none
  | f + 1, j =>
    match j with
    | .obj fs =>
      match getField fs "resolved_path" with
      | some inner => decodeResolvedPathF f inner
      | none => none
    | _ => none

/-- Fueled deserializer of the struct `ResolvedPath`: required string
field `name`, optional field `args` holding `GenericArgs` (a missing map
field or a `null` gives `None`; a present value that fails as
`GenericArgs` fails the whole struct); from a map by key, or from a
sequence of exactly two elements positionally (the derived
`visit_seq`). -/
def decodeResolvedPathF : Nat → Json → Option Ty
  | 0, _ => none
  | f + 1, j =>
    match j with
    | .obj gs =>
      match getField gs "name" with
      | some (.str n) =>
        match getField gs "args" with
        | none => some (Ty.resolvedPath n none)
        | some .null => some (Ty.resolvedPath n none)
        | some v =>
          match decodeGenericArgsF f v with
          | some ga => some (Ty.resolvedPath n (some ga))
          | none => none
      | _ => none
    | .arr [nv, av] =>
      match nv with
      | .str n =>
        match av with
        | .null => some (Ty.resolvedPath n none)
        | _ =>
          match decodeGenericArgsF f av with
          | some ga => some (Ty.resolvedPath n (some ga))
          | none => none
      | _ => none
    | _ => none

/-- Fueled decoder of the untagged `enum GenericArgs`: its only variant
requires an object with an `angle_bracketed` field (no catch-all). -/
def decodeGenericArgsF : Nat → Json → Option GenericArgs
  | 0, _ => none
  | f + 1, j =>
    match j with
    | .obj hs =>
      match getField hs "angle_bracketed" with
      | some ab => decodeAngleBracketedArgsF f ab
      | none => none
    | _ => none

/-- Fueled deserializer of the struct `AngleBracketedArgs`: both fields
carry `#[serde(default)]`, so each may be missing (empty list); a present
`args` value must be an array of `GenericArg`s.  From a map by key, or
from a sequence of at most two elements positionally (the derived
`visit_seq`, where the defaults fill the missing trailing elements). -/
def decodeAngleBracketedArgsF : Nat → Json → Option GenericArgs
  | 0, _ => none
  | f + 1, j =>
    match j with
    | .obj ks =>
      match decodeConstraints ks with
      | some cs =>
        match getField ks "args" with
        | none => some (GenericArgs.angleBracketed [] cs)
        | some (.arr xs) =>
          match decodeGenericArgListF f xs with
          | some gas => some (GenericArgs.angleBracketed gas cs)
          | none => none
        | some _ => none
      | none => none
    | .arr [] => some (GenericArgs.angleBracketed [] [])
    | .arr [av] =>
      match av with
      | .arr xs =>
        match decodeGenericArgListF f xs with
        | some gas => some (GenericArgs.angleBracketed gas [])
        | none => none
      | _ => none
    | .arr [av, cv] =>
      match av with
      | .arr xs =>
        match decodeGenericArgListF f xs with
        | some gas =>
          match decodeStringList cv with
          | some cs => some (GenericArgs.angleBracketed gas cs)
          | none => none
        | none => none
      | _ => none
    | _ => none

/-- Fueled element-wise deserializer of a `Vec<GenericArg>`. -/
def decodeGenericArgListF : Nat → List Json → Option (List GenericArg)
  | 0, _ => none
  | _ + 1, [] => some []
  | f + 1, x :: rest =>
    match decodeGenericArgF f x with
    | some g =>
      match decodeGenericArgListF f rest with
      | some gs => some (g :: gs)
      | none => none
    | none => none

/-- Fueled decoder of the untagged `enum GenericArg`: its only variant
requires an object with a `type` field holding a `Type` (no catch-all). -/
def decodeGenericArgF : Nat → Json → Option GenericArg
  | 0, _ => none
  | f + 1, j =>
    match j with
    | .obj hs =>
      match getField hs "type" with
      | some v =>
        match decodeTypeF f v with
        | some t => some (GenericArg.type t)
        | none => none
      | none => none
    | _ => none

/-- Fueled `Tuple` arm: an object whose `tuple` field is an array of
`Type`s. -/
def tryTupleF : Nat → Json → Option Ty
  | 0, _ => none
  | f + 1, j =>
    match j with
    | .obj fs =>
      match getField fs "tuple" with
      | some (.arr xs) =>
        match decodeTypeListF f xs with
        | some ts => some (Ty.tuple ts)
        | none => none
      | some _ => none
      | none => none
    | _ => none

/-- Fueled element-wise deserializer of a `Vec<Type>`. -/
def decodeTypeListF : Nat → List Json → Option (List Ty)
  | 0, _ => none
  | _ + 1, [] => some []
  | f + 1, x :: rest =>
    match decodeTypeF f x with
    | some t =>
      match decodeTypeListF f rest with
      | some ts => some (t :: ts)
      | none => none
    | none => none

/-- Fueled `Slice` arm: an object whose `slice` field holds a `Type`. -/
def trySliceF : Nat → Json → Option Ty
  | 0, _ => none
  | f + 1, j =>
    match j with
    | .obj fs =>
      match getField fs "slice" with
      | some v =>
        match decodeTypeF f v with
        | some t => some (Ty.slice t)
        | none => none
      | none => none
    | _ => none

end

/-- The decoder of the untagged `enum Type` (fuel-free form): `jsize j` is
always enough fuel, as `decode_fuel_stable` shows. -/
def decodeType (j : Json) : Option Ty := decodeTypeF (jsize j) j

/-- The `BorrowedRef` arm of the untagged `Type` decoder (fuel-free). -/
def tryBorrowedRef (j : Json) : Option Ty := tryBorrowedRefF (jsize j) j

/-- The deserializer of the struct `BorrowedRefType` (fuel-free). -/
def decodeBorrowedRefType (j : Json) : Option Ty := decodeBorrowedRefTypeF (jsize j) j

/-- The `ResolvedPath` arm of the untagged `Type` decoder (fuel-free). -/
def tryResolvedPath (j : Json) : Option Ty := tryResolvedPathF (jsize j) j

/-- The deserializer of the struct `ResolvedPath` (fuel-free). -/
def decodeResolvedPath (j : Json) : Option Ty := decodeResolvedPathF (jsize j) j

/-- The decoder of the untagged `enum GenericArgs` (fuel-free). -/
def decodeGenericArgs (j : Json) : Option GenericArgs := decodeGenericArgsF (jsize j) j

/-- The deserializer of the struct `AngleBracketedArgs` (fuel-free). -/
def decodeAngleBracketedArgs (j : Json) : Option GenericArgs :=
  decodeAngleBracketedArgsF (jsize j) j

/-- Element-wise deserialization of a `Vec<GenericArg>` (fuel-free). -/
def decodeGenericArgList (xs : List Json) : Option (List GenericArg) :=
  decodeGenericArgListF (jsizeList xs) xs

/-- The decoder of the untagged `enum GenericArg` (fuel-free). -/
def decodeGenericArg (j : Json) : Option GenericArg := decodeGenericArgF (jsize j) j

/-- The `Tuple` arm of the untagged `Type` decoder (fuel-free). -/
def tryTuple (j : Json) : Option Ty := tryTupleF (jsize j) j

/-- Element-wise deserialization of a `Vec<Type>` (fuel-free). -/
def decodeTypeList (xs : List Json) : Option (List Ty) := decodeTypeListF (jsizeList xs) xs

/-- The `Slice` arm of the untagged `Type` decoder (fuel-free). -/
def trySlice (j : Json) : Option Ty := trySliceF (jsize j) j

/-- The six fallible variant decoders of the untagged `enum Type`, indexed
in the declaration order serde tries them in (`0` = `BorrowedRef`, ...,
`5` = `Slice`); any index past the last variant matches nothing. -/
def tryVariant : Nat → Json → Option Ty
  | 0, j => tryBorrowedRef j
  | 1, j => tryResolvedPath j
  | 2, j => tryGeneric j
  | 3, j => tryPrimitive j
  | 4, j => tryTuple j
  | 5, j => trySlice j
  | _ + 6, _ => none

/-- The Function Signature rendering algorithm as the specification's
section 4.2 states it, step by step: `fn`, the name, the parenthesised
`name: type` list joined with comma-space, then the return-type suffix
exactly when a return type is present and does not render as the unit
string.  Written from the specification's words, to be compared with the
source's `function_sig_to_string`. -/
def specFunctionSigString (name : String) (sig : FunctionSig) : String :=
  let opening := "fn " ++ name ++ "("
  let paramList := joinSep ", " (sig.inputs.map (fun p => p.1 ++ ": " ++ type_to_string p.2))
  let closed := opening ++ paramList ++ ")"
  match sig.output with
  | none => closed
  | some rt =>
    if type_to_string rt = "()" then closed else closed ++ " -> " ++ type_to_string rt

/-- One string occurs verbatim inside another. -/
def ContainsStr (needle hay : String) : Prop :=
  ∃ pre post, hay.data = pre ++ needle.data ++ post

/-- Occurrence of one type expression as a subtree of another, at the
recursive positions of the renderer: the referent of a reference, the
element of a slice, an element of a tuple, or a generic argument of a
resolved path. -/
inductive OccursIn : Ty → Ty → Prop where
  | refl (t : Ty) : OccursIn t t
  | borrowedRef {s t : Ty} (m : Bool) (lt : Option String) :
      OccursIn s t → OccursIn s (Ty.borrowedRef m lt t)
  | slice {s t : Ty} : OccursIn s t → OccursIn s (Ty.slice t)
  | tupleElem {s t : Ty} {ts : List Ty} : t ∈ ts → OccursIn s t → OccursIn s (Ty.tuple ts)
  | genericArg {s t : Ty} {gas : List GenericArg} (n : String) (cs : List String) :
      GenericArg.type t ∈ gas → OccursIn s t →
      OccursIn s (Ty.resolvedPath n (some (GenericArgs.angleBracketed gas cs)))

/-- The lifetime text consisting of an apostrophe (code point 39) followed
by the letter `a`. -/
def lifetimeA : String := String.singleton (Char.ofNat 39) ++ "a"

/-- Every JSON value has positive size (the decoders' fuel is never zero). -/
theorem jsize_pos (j : Json) : 1 ≤ jsize j := by
  cases j <;> simp only [jsize] <;> omega

/-- Every element list has positive size. -/
theorem jsizeList_pos (xs : List Json) : 1 ≤ jsizeList xs := by
  cases xs <;> simp only [jsizeList] <;> omega

/-- Every entry list has positive size. -/
theorem jsizeFields_pos (fs : List (String × Json)) : 1 ≤ jsizeFields fs := by
  cases fs with
  | nil => simp only [jsizeFields]; omega
  | cons p rest => obtain ⟨k, v⟩ := p; simp only [jsizeFields]; omega

/-- A value found by `getField` is structurally smaller than the object it
came from, with slack for the key/pair/object wrappers (used to show that
the `jsize`-based fuel of the decoders suffices). -/
theorem getField_jsize {fs : List (String × Json)} {k : String} {v : Json}
    (h : getField fs k = some v) : jsize v + 3 ≤ jsize (Json.obj fs) := by
  induction fs with
  | nil => simp [getField] at h
  | cons p rest ih =>
    obtain ⟨k₂, v₂⟩ := p
    rw [getField] at h
    split at h
    · cases h
      have := jsizeFields_pos rest
      simp only [jsize, jsizeFields]
      omega
    · have := ih h
      simp only [jsize, jsizeFields] at this ⊢
      omega

/-- Fuel is irrelevant once it covers the value's size: each decoder gives
the same answer at any two sufficient fuels (stated for `f ≤ f₂` with the
sufficiency bound on the smaller fuel). -/
theorem decode_fuel_stable : ∀ (f f₂ : Nat), f ≤ f₂ →
    (∀ j, jsize j ≤ f → decodeTypeF f j = decodeTypeF f₂ j)
    ∧ (∀ j, jsize j ≤ f + 1 → tryBorrowedRefF f j = tryBorrowedRefF f₂ j)
    ∧ (∀ j, jsize j ≤ f + 1 → decodeBorrowedRefTypeF f j = decodeBorrowedRefTypeF f₂ j)
    ∧ (∀ j, jsize j ≤ f + 1 → tryResolvedPathF f j = tryResolvedPathF f₂ j)
    ∧ (∀ j, jsize j ≤ f + 1 → decodeResolvedPathF f j = decodeResolvedPathF f₂ j)
    ∧ (∀ j, jsize j ≤ f + 1 → decodeGenericArgsF f j = decodeGenericArgsF f₂ j)
    ∧ (∀ j, jsize j ≤ f + 1 → decodeAngleBracketedArgsF f j = decodeAngleBracketedArgsF f₂ j)
    ∧ (∀ xs, jsizeList xs ≤ f → decodeGenericArgListF f xs = decodeGenericArgListF f₂ xs)
    ∧ (∀ j, jsize j ≤ f + 1 → decodeGenericArgF f j = decodeGenericArgF f₂ j)
    ∧ (∀ j, jsize j ≤ f + 1 → tryTupleF f j = tryTupleF f₂ j)
    ∧ (∀ xs, jsizeList xs ≤ f → decodeTypeListF f xs = decodeTypeListF f₂ xs)
    ∧ (∀ j, jsize j ≤ f + 1 → trySliceF f j = trySliceF f₂ j) := by
  intro f
  induction f with
  | zero =>
    intro f₂ hf₂
    match f₂, hf₂ with
    | 0, _ =>
      exact ⟨fun j _ => rfl, fun j _ => rfl, fun j _ => rfl, fun j _ => rfl, fun j _ => rfl,
        fun j _ => rfl, fun j _ => rfl, fun xs _ => rfl, fun j _ => rfl, fun j _ => rfl,
        fun xs _ => rfl, fun j _ => rfl⟩
    | g + 1, _ =>
      have hobj : ∀ (fs : List (String × Json)), ¬ jsize (Json.obj fs) ≤ 1 := by
        intro fs h
        have := jsizeFields_pos fs
        simp only [jsize] at h
        omega
      have harr : ∀ (xs : List Json), ¬ jsize (Json.arr xs) ≤ 1 := by
        intro xs h
        have := jsizeList_pos xs
        simp only [jsize] at h
        omega
      refine ⟨fun j hj => absurd hj (by have := jsize_pos j; omega),
        ?_, ?_, ?_, ?_, ?_, ?_,
        fun xs hxs => absurd hxs (by have := jsizeList_pos xs; omega),
        ?_, ?_,
        fun xs hxs => absurd hxs (by have := jsizeList_pos xs; omega),
        ?_⟩ <;>
        (intro j hj
         cases j with
         | obj fs => exact absurd hj (hobj fs)
         | null => rfl
         | bool b => rfl
         | num n => rfl
         | str s => rfl
         | arr xs => exact absurd hj (harr xs))
  | succ f ih =>
    intro f₂ hf₂
    match f₂, hf₂ with
    | g + 1, hf₂ =>
    have hg : f ≤ g := by omega
    obtain ⟨ihT, ihBR, ihBRT, ihRP, ihRPd, ihGAs, ihABA, ihGAL, ihGA, ihTu, ihTL, ihSl⟩ :=
      ih g hg
    refine ⟨?_, ?_, ?_, ?_, ?_, ?_, ?_, ?_, ?_, ?_, ?_, ?_⟩
    · -- decodeTypeF
      intro j hj
      simp only [decodeTypeF]
      rw [ihBR j (by omega), ihRP j (by omega), ihTu j (by omega), ihSl j (by omega)]
    · -- tryBorrowedRefF
      intro j hj
      cases j <;> try rfl
      next fs =>
        simp only [tryBorrowedRefF]
        cases h : getField fs "borrowed_ref" with
        | none => rfl
        | some inner =>
          have hs := getField_jsize h
          exact ihBRT inner (by omega)
    · -- decodeBorrowedRefTypeF
      intro j hj
      cases j <;> try rfl
      case arr elems =>
        rcases elems with _ | ⟨bv, _ | ⟨ltv, _ | ⟨tv, _ | ⟨e4, rest⟩⟩⟩⟩ <;> try rfl
        simp only [decodeBorrowedRefTypeF]
        cases bv <;> try rfl
        next m =>
          dsimp only
          cases h2 : decodeOptString ltv with
          | none => rfl
          | some lt =>
            dsimp only
            rw [ihT tv (by simp only [jsize, jsizeList] at hj; omega)]
      case obj gs =>
        simp only [decodeBorrowedRefTypeF]
        cases h1 : getField gs "is_mutable" with
        | none => rfl
        | some b =>
          cases b <;> try rfl
          next m =>
            dsimp only
            cases h2 : decodeOptStringField gs "lifetime" with
            | none => rfl
            | some lt =>
              dsimp only
              cases h3 : getField gs "type" with
              | none => rfl
              | some v =>
                dsimp only
                have hs := getField_jsize h3
                rw [ihT v (by omega)]
    · -- tryResolvedPathF
      intro j hj
      cases j <;> try rfl
      next fs =>
        simp only [tryResolvedPathF]
        cases h : getField fs "resolved_path" with
        | none => rfl
        | some inner =>
          have hs := getField_jsize h
          exact ihRPd inner (by omega)
    · -- decodeResolvedPathF
      intro j hj
      cases j <;> try rfl
      case arr elems =>
        rcases elems with _ | ⟨nv, _ | ⟨av, _ | ⟨e3, rest⟩⟩⟩ <;> try rfl
        simp only [decodeResolvedPathF]
        cases nv <;> try rfl
        next n =>
          dsimp only
          cases av <;> try rfl
          all_goals dsimp only
          all_goals rw [ihGAs _ (by simp only [jsize, jsizeList] at hj ⊢; omega)]
      case obj gs =>
        simp only [decodeResolvedPathF]
        cases h1 : getField gs "name" with
        | none => rfl
        | some b =>
          cases b <;> try rfl
          next n =>
            dsimp only
            cases h2 : getField gs "args" with
            | none => rfl
            | some v =>
              have hs := getField_jsize h2
              cases v <;> try rfl
              all_goals dsimp only
              all_goals rw [ihGAs _ (by simp only [jsize] at hs hj ⊢; omega)]
    · -- decodeGenericArgsF
      intro j hj
      cases j <;> try rfl
      next hs =>
        simp only [decodeGenericArgsF]
        cases h : getField hs "angle_bracketed" with
        | none => rfl
        | some ab =>
          have hs₂ := getField_jsize h
          exact ihABA ab (by omega)
    · -- decodeAngleBracketedArgsF
      intro j hj
      cases j <;> try rfl
      case arr elems =>
        rcases elems with _ | ⟨av, _ | ⟨cv, _ | ⟨e3, rest⟩⟩⟩ <;> try rfl
        · simp only [decodeAngleBracketedArgsF]
          cases av <;> try rfl
          next xs =>
            dsimp only
            rw [ihGAL xs (by simp only [jsize, jsizeList] at hj; omega)]
        · simp only [decodeAngleBracketedArgsF]
          cases av <;> try rfl
          next xs =>
            dsimp only
            rw [ihGAL xs (by simp only [jsize, jsizeList] at hj; omega)]
      case obj ks =>
        simp only [decodeAngleBracketedArgsF]
        cases h0 : decodeConstraints ks with
        | none => rfl
        | some cs =>
          dsimp only
          cases h1 : getField ks "args" with
          | none => rfl
          | some v =>
            have hs := getField_jsize h1
            cases v <;> try rfl
            next xs =>
              dsimp only
              simp only [jsize] at hs hj
              rw [ihGAL xs (by omega)]
    · -- decodeGenericArgListF
      intro xs hxs
      cases xs with
      | nil => rfl
      | cons x rest =>
        simp only [decodeGenericArgListF]
        simp only [jsizeList] at hxs
        have hpos := jsizeList_pos rest
        have hposx := jsize_pos x
        rw [ihGA x (by omega), ihGAL rest (by omega)]
    · -- decodeGenericArgF
      intro j hj
      cases j <;> try rfl
      next hs =>
        simp only [decodeGenericArgF]
        cases h : getField hs "type" with
        | none => rfl
        | some v =>
          dsimp only
          have hs₂ := getField_jsize h
          rw [ihT v (by omega)]
    · -- tryTupleF
      intro j hj
      cases j <;> try rfl
      next fs =>
        simp only [tryTupleF]
        cases h : getField fs "tuple" with
        | none => rfl
        | some v =>
          have hs := getField_jsize h
          cases v <;> try rfl
          next xs =>
            dsimp only
            simp only [jsize] at hs hj
            rw [ihTL xs (by omega)]
    · -- decodeTypeListF
      intro xs hxs
      cases xs with
      | nil => rfl
      | cons x rest =>
        simp only [decodeTypeListF]
        simp only [jsizeList] at hxs
        have hpos := jsizeList_pos rest
        have hposx := jsize_pos x
        rw [ihT x (by omega), ihTL rest (by omega)]
    · -- trySliceF
      intro j hj
      cases j <;> try rfl
      next fs =>
        simp only [trySliceF]
        cases h : getField fs "slice" with
        | none => rfl
        | some v =>
          dsimp only
          have hs := getField_jsize h
          rw [ihT v (by omega)]

/-- Any sufficient fuel computes `decodeType`. -/
theorem decodeTypeF_canon {f : Nat} (j : Json) (h : jsize j ≤ f) :
    decodeTypeF f j = decodeType j :=
  ((decode_fuel_stable (jsize j) f h).1 j (Nat.le_refl _)).symm

/-- Any sufficient fuel computes `tryBorrowedRef`. -/
theorem tryBorrowedRefF_canon {f : Nat} (j : Json) (h : jsize j ≤ f + 1) :
    tryBorrowedRefF f j = tryBorrowedRef j := by
  rcases Nat.le_total f (jsize j) with hle | hle
  · exact (decode_fuel_stable f (jsize j) hle).2.1 j h
  · exact ((decode_fuel_stable (jsize j) f hle).2.1 j (by omega)).symm

/-- Any sufficient fuel computes `decodeBorrowedRefType`. -/
theorem decodeBorrowedRefTypeF_canon {f : Nat} (j : Json) (h : jsize j ≤ f + 1) :
    decodeBorrowedRefTypeF f j = decodeBorrowedRefType j := by
  rcases Nat.le_total f (jsize j) with hle | hle
  · exact (decode_fuel_stable f (jsize j) hle).2.2.1 j h
  · exact ((decode_fuel_stable (jsize j) f hle).2.2.1 j (by omega)).symm

/-- Any sufficient fuel computes `tryResolvedPath`. -/
theorem tryResolvedPathF_canon {f : Nat} (j : Json) (h : jsize j ≤ f + 1) :
    tryResolvedPathF f j = tryResolvedPath j := by
  rcases Nat.le_total f (jsize j) with hle | hle
  · exact (decode_fuel_stable f (jsize j) hle).2.2.2.1 j h
  · exact ((decode_fuel_stable (jsize j) f hle).2.2.2.1 j (by omega)).symm

/-- Any sufficient fuel computes `decodeResolvedPath`. -/
theorem decodeResolvedPathF_canon {f : Nat} (j : Json) (h : jsize j ≤ f + 1) :
    decodeResolvedPathF f j = decodeResolvedPath j := by
  rcases Nat.le_total f (jsize j) with hle | hle
  · exact (decode_fuel_stable f (jsize j) hle).2.2.2.2.1 j h
  · exact ((decode_fuel_stable (jsize j) f hle).2.2.2.2.1 j (by omega)).symm

/-- Any sufficient fuel computes `decodeGenericArgs`. -/
theorem decodeGenericArgsF_canon {f : Nat} (j : Json) (h : jsize j ≤ f + 1) :
    decodeGenericArgsF f j = decodeGenericArgs j := by
  rcases Nat.le_total f (jsize j) with hle | hle
  · exact (decode_fuel_stable f (jsize j) hle).2.2.2.2.2.1 j h
  · exact ((decode_fuel_stable (jsize j) f hle).2.2.2.2.2.1 j (by omega)).symm

/-- Any sufficient fuel computes `decodeAngleBracketedArgs`. -/
theorem decodeAngleBracketedArgsF_canon {f : Nat} (j : Json) (h : jsize j ≤ f + 1) :
    decodeAngleBracketedArgsF f j = decodeAngleBracketedArgs j := by
  rcases Nat.le_total f (jsize j) with hle | hle
  · exact (decode_fuel_stable f (jsize j) hle).2.2.2.2.2.2.1 j h
  · exact ((decode_fuel_stable (jsize j) f hle).2.2.2.2.2.2.1 j (by omega)).symm

/-- Any sufficient fuel computes `decodeGenericArgList`. -/
theorem decodeGenericArgListF_canon {f : Nat} (xs : List Json) (h : jsizeList xs ≤ f) :
    decodeGenericArgListF f xs = decodeGenericArgList xs :=
  ((decode_fuel_stable (jsizeList xs) f h).2.2.2.2.2.2.2.1 xs (Nat.le_refl _)).symm

/-- Any sufficient fuel computes `decodeGenericArg`. -/
theorem decodeGenericArgF_canon {f : Nat} (j : Json) (h : jsize j ≤ f + 1) :
    decodeGenericArgF f j = decodeGenericArg j := by
  rcases Nat.le_total f (jsize j) with hle | hle
  · exact (decode_fuel_stable f (jsize j) hle).2.2.2.2.2.2.2.2.1 j h
  · exact ((decode_fuel_stable (jsize j) f hle).2.2.2.2.2.2.2.2.1 j (by omega)).symm

/-- Any sufficient fuel computes `tryTuple`. -/
theorem tryTupleF_canon {f : Nat} (j : Json) (h : jsize j ≤ f + 1) :
    tryTupleF f j = tryTuple j := by
  rcases Nat.le_total f (jsize j) with hle | hle
  · exact (decode_fuel_stable f (jsize j) hle).2.2.2.2.2.2.2.2.2.1 j h
  · exact ((decode_fuel_stable (jsize j) f hle).2.2.2.2.2.2.2.2.2.1 j (by omega)).symm

/-- Any sufficient fuel computes `decodeTypeList`. -/
theorem decodeTypeListF_canon {f : Nat} (xs : List Json) (h : jsizeList xs ≤ f) :
    decodeTypeListF f xs = decodeTypeList xs :=
  ((decode_fuel_stable (jsizeList xs) f h).2.2.2.2.2.2.2.2.2.2.1 xs (Nat.le_refl _)).symm

/-- Any sufficient fuel computes `trySlice`. -/
theorem trySliceF_canon {f : Nat} (j : Json) (h : jsize j ≤ f + 1) :
    trySliceF f j = trySlice j := by
  rcases Nat.le_total f (jsize j) with hle | hle
  · exact (decode_fuel_stable f (jsize j) hle).2.2.2.2.2.2.2.2.2.2.2 j h
  · exact ((decode_fuel_stable (jsize j) f hle).2.2.2.2.2.2.2.2.2.2.2 j (by omega)).symm

/-- The untagged `Type` decoder is the variant cascade in declaration
order: first match wins, and the `Other(Value)` catch-all makes the final
arm infallible (serde's generated code for `#[serde(untagged)]`). -/
theorem decodeType_eq (j : Json) : decodeType j =
    (match tryBorrowedRef j with
    | some t => some t
    | none =>
      match tryResolvedPath j with
      | some t => some t
      | none =>
        match tryGeneric j with
        | some t => some t
        | none =>
          match tryPrimitive j with
          | some t => some t
          | none =>
            match tryTuple j with
            | some t => some t
            | none =>
              match trySlice j with
              | some t => some t
              | none => some (Ty.other j)) := by
  have h1 := jsize_pos j
  obtain ⟨g, hg⟩ : ∃ g, jsize j = g + 1 := ⟨jsize j - 1, by omega⟩
  unfold decodeType
  rw [hg]
  simp only [decodeTypeF]
  rw [tryBorrowedRefF_canon j (by omega), tryResolvedPathF_canon j (by omega),
      tryTupleF_canon j (by omega), trySliceF_canon j (by omega)]

/-- The `BorrowedRef` arm in terms of `getField` and the struct decoder. -/
theorem tryBorrowedRef_eq (j : Json) : tryBorrowedRef j =
    (match j with
    | .obj fs =>
      (match getField fs "borrowed_ref" with
      | some inner => decodeBorrowedRefType inner
      | none => none)
    | _ => none) := by
  have h1 := jsize_pos j
  obtain ⟨g, hg⟩ : ∃ g, jsize j = g + 1 := ⟨jsize j - 1, by omega⟩
  unfold tryBorrowedRef
  rw [hg]
  cases j <;> try rfl
  next fs =>
    simp only [tryBorrowedRefF]
    cases h : getField fs "borrowed_ref" with
    | none => rfl
    | some inner =>
      dsimp only
      have hs := getField_jsize h
      rw [decodeBorrowedRefTypeF_canon inner (by omega)]

/-- The `BorrowedRefType` struct decoder in terms of `getField` and the
recursive `Type` decoder: from a map, or positionally from a
three-element sequence. -/
theorem decodeBorrowedRefType_eq (j : Json) : decodeBorrowedRefType j =
    (match j with
    | .obj gs =>
      (match getField gs "is_mutable" with
      | some (.bool m) =>
        (match decodeOptStringField gs "lifetime" with
        | some lt =>
          (match getField gs "type" with
          | some v =>
            (match decodeType v with
            | some t => some (Ty.borrowedRef m lt t)
            | none => none)
          | none => none)
        | none => none)
      | _ => none)
    | .arr [bv, ltv, tv] =>
      (match bv with
      | .bool m =>
        (match decodeOptString ltv with
        | some lt =>
          (match decodeType tv with
          | some t => some (Ty.borrowedRef m lt t)
          | none => none)
        | none => none)
      | _ => none)
    | _ => none) := by
  have h1 := jsize_pos j
  obtain ⟨g, hg⟩ : ∃ g, jsize j = g + 1 := ⟨jsize j - 1, by omega⟩
  unfold decodeBorrowedRefType
  rw [hg]
  cases j <;> try rfl
  case arr elems =>
    rcases elems with _ | ⟨bv, _ | ⟨ltv, _ | ⟨tv, _ | ⟨e4, rest⟩⟩⟩⟩ <;> try rfl
    simp only [decodeBorrowedRefTypeF]
    cases bv <;> try rfl
    next m =>
      dsimp only
      cases h2 : decodeOptString ltv with
      | none => rfl
      | some lt =>
        dsimp only
        rw [decodeTypeF_canon tv (by simp only [jsize, jsizeList] at hg; omega)]
  case obj gs =>
    simp only [decodeBorrowedRefTypeF]
    cases h1 : getField gs "is_mutable" with
    | none => rfl
    | some b =>
      cases b <;> try rfl
      next m =>
        dsimp only
        cases h2 : decodeOptStringField gs "lifetime" with
        | none => rfl
        | some lt =>
          dsimp only
          cases h3 : getField gs "type" with
          | none => rfl
          | some v =>
            dsimp only
            have hs := getField_jsize h3
            rw [decodeTypeF_canon v (by omega)]

/-- The `ResolvedPath` arm in terms of `getField` and the struct decoder. -/
theorem tryResolvedPath_eq (j : Json) : tryResolvedPath j =
    (match j with
    | .obj fs =>
      (match getField fs "resolved_path" with
      | some inner => decodeResolvedPath inner
      | none => none)
    | _ => none) := by
  have h1 := jsize_pos j
  obtain ⟨g, hg⟩ : ∃ g, jsize j = g + 1 := ⟨jsize j - 1, by omega⟩
  unfold tryResolvedPath
  rw [hg]
  cases j <;> try rfl
  next fs =>
    simp only [tryResolvedPathF]
    cases h : getField fs "resolved_path" with
    | none => rfl
    | some inner =>
      dsimp only
      have hs := getField_jsize h
      rw [decodeResolvedPathF_canon inner (by omega)]

/-- The `ResolvedPath` struct decoder in terms of `getField` and the
`GenericArgs` decoder: from a map, or positionally from a two-element
sequence. -/
theorem decodeResolvedPath_eq (j : Json) : decodeResolvedPath j =
    (match j with
    | .obj gs =>
      (match getField gs "name" with
      | some (.str n) =>
        (match getField gs "args" with
        | none => some (Ty.resolvedPath n none)
        | some .null => some (Ty.resolvedPath n none)
        | some v =>
          (match decodeGenericArgs v with
          | some ga => some (Ty.resolvedPath n (some ga))
          | none => none))
      | _ => none)
    | .arr [nv, av] =>
      (match nv with
      | .str n =>
        (match av with
        | .null => some (Ty.resolvedPath n none)
        | _ =>
          (match decodeGenericArgs av with
          | some ga => some (Ty.resolvedPath n (some ga))
          | none => none))
      | _ => none)
    | _ => none) := by
  have h1 := jsize_pos j
  obtain ⟨g, hg⟩ : ∃ g, jsize j = g + 1 := ⟨jsize j - 1, by omega⟩
  unfold decodeResolvedPath
  rw [hg]
  cases j <;> try rfl
  case arr elems =>
    rcases elems with _ | ⟨nv, _ | ⟨av, _ | ⟨e3, rest⟩⟩⟩ <;> try rfl
    simp only [decodeResolvedPathF]
    cases nv <;> try rfl
    next n =>
      dsimp only
      cases av <;> try rfl
      all_goals dsimp only
      all_goals rw [decodeGenericArgsF_canon _ (by simp only [jsize, jsizeList] at hg ⊢; omega)]
  case obj gs =>
    simp only [decodeResolvedPathF]
    cases h1 : getField gs "name" with
    | none => rfl
    | some b =>
      cases b <;> try rfl
      next n =>
        dsimp only
        cases h2 : getField gs "args" with
        | none => rfl
        | some v =>
          have hs := getField_jsize h2
          cases v <;> try rfl
          all_goals dsimp only
          all_goals rw [decodeGenericArgsF_canon _ (by omega)]

/-- The `GenericArgs` decoder in terms of `getField`. -/
theorem decodeGenericArgs_eq (j : Json) : decodeGenericArgs j =
    (match j with
    | .obj hs =>
      (match getField hs "angle_bracketed" with
      | some ab => decodeAngleBracketedArgs ab
      | none => none)
    | _ => none) := by
  have h1 := jsize_pos j
  obtain ⟨g, hg⟩ : ∃ g, jsize j = g + 1 := ⟨jsize j - 1, by omega⟩
  unfold decodeGenericArgs
  rw [hg]
  cases j <;> try rfl
  next hs =>
    simp only [decodeGenericArgsF]
    cases h : getField hs "angle_bracketed" with
    | none => rfl
    | some ab =>
      dsimp only
      have hs₂ := getField_jsize h
      rw [decodeAngleBracketedArgsF_canon ab (by omega)]

/-- The `AngleBracketedArgs` struct decoder in terms of `getField`: from
a map, or positionally from a sequence of at most two elements. -/
theorem decodeAngleBracketedArgs_eq (j : Json) : decodeAngleBracketedArgs j =
    (match j with
    | .obj ks =>
      (match decodeConstraints ks with
      | some cs =>
        (match getField ks "args" with
        | none => some (GenericArgs.angleBracketed [] cs)
        | some (.arr xs) =>
          (match decodeGenericArgList xs with
          | some gas => some (GenericArgs.angleBracketed gas cs)
          | none => none)
        | some _ => none)
      | none => none)
    | .arr [] => some (GenericArgs.angleBracketed [] [])
    | .arr [av] =>
      (match av with
      | .arr xs =>
        (match decodeGenericArgList xs with
        | some gas => some (GenericArgs.angleBracketed gas [])
        | none => none)
      | _ => none)
    | .arr [av, cv] =>
      (match av with
      | .arr xs =>
        (match decodeGenericArgList xs with
        | some gas =>
          (match decodeStringList cv with
          | some cs => some (GenericArgs.angleBracketed gas cs)
          | none => none)
        | none => none)
      | _ => none)
    | _ => none) := by
  have h1 := jsize_pos j
  obtain ⟨g, hg⟩ : ∃ g, jsize j = g + 1 := ⟨jsize j - 1, by omega⟩
  unfold decodeAngleBracketedArgs
  rw [hg]
  cases j <;> try rfl
  case arr elems =>
    rcases elems with _ | ⟨av, _ | ⟨cv, _ | ⟨e3, rest⟩⟩⟩ <;> try rfl
    · simp only [decodeAngleBracketedArgsF]
      cases av <;> try rfl
      next xs =>
        dsimp only
        rw [decodeGenericArgListF_canon xs (by simp only [jsize, jsizeList] at hg; omega)]
    · simp only [decodeAngleBracketedArgsF]
      cases av <;> try rfl
      next xs =>
        dsimp only
        rw [decodeGenericArgListF_canon xs (by simp only [jsize, jsizeList] at hg; omega)]
  case obj ks =>
    simp only [decodeAngleBracketedArgsF]
    cases h0 : decodeConstraints ks with
    | none => rfl
    | some cs =>
      dsimp only
      cases h1 : getField ks "args" with
      | none => rfl
      | some v =>
        have hs := getField_jsize h1
        cases v <;> try rfl
        next xs =>
          dsimp only
          simp only [jsize] at hs hg
          rw [decodeGenericArgListF_canon xs (by omega)]

/-- The element-wise `Vec<GenericArg>` decoder: head and tail both decode
or the whole list fails. -/
theorem decodeGenericArgList_eq : (decodeGenericArgList [] = some []) ∧
    ∀ x rest, decodeGenericArgList (x :: rest) =
    (match decodeGenericArg x with
    | some g =>
      (match decodeGenericArgList rest with
      | some gs => some (g :: gs)
      | none => none)
    | none => none) := by
  refine ⟨rfl, fun x rest => ?_⟩
  have hx := jsize_pos x
  have hr := jsizeList_pos rest
  have hg : jsizeList (x :: rest) = (jsize x + jsizeList rest) + 1 := by
    simp only [jsizeList]; omega
  conv_lhs => rw [decodeGenericArgList, hg]
  simp only [decodeGenericArgListF]
  rw [decodeGenericArgF_canon x (by omega),
    @decodeGenericArgListF_canon (jsize x + jsizeList rest) rest (by omega)]

/-- The `GenericArg` decoder in terms of `getField` and the recursive
`Type` decoder. -/
theorem decodeGenericArg_eq (j : Json) : decodeGenericArg j =
    (match j with
    | .obj hs =>
      (match getField hs "type" with
      | some v =>
        (match decodeType v with
        | some t => some (GenericArg.type t)
        | none => none)
      | none => none)
    | _ => none) := by
  have h1 := jsize_pos j
  obtain ⟨g, hg⟩ : ∃ g, jsize j = g + 1 := ⟨jsize j - 1, by omega⟩
  unfold decodeGenericArg
  rw [hg]
  cases j <;> try rfl
  next hs =>
    simp only [decodeGenericArgF]
    cases h : getField hs "type" with
    | none => rfl
    | some v =>
      dsimp only
      have hs₂ := getField_jsize h
      rw [decodeTypeF_canon v (by omega)]

/-- The `Tuple` arm in terms of `getField` and the list decoder. -/
theorem tryTuple_eq (j : Json) : tryTuple j =
    (match j with
    | .obj fs =>
      (match getField fs "tuple" with
      | some (.arr xs) =>
        (match decodeTypeList xs with
        | some ts => some (Ty.tuple ts)
        | none => none)
      | some _ => none
      | none => none)
    | _ => none) := by
  have h1 := jsize_pos j
  obtain ⟨g, hg⟩ : ∃ g, jsize j = g + 1 := ⟨jsize j - 1, by omega⟩
  unfold tryTuple
  rw [hg]
  cases j <;> try rfl
  next fs =>
    simp only [tryTupleF]
    cases h : getField fs "tuple" with
    | none => rfl
    | some v =>
      have hs := getField_jsize h
      cases v <;> try rfl
      next xs =>
        dsimp only
        simp only [jsize] at hs hg
        rw [decodeTypeListF_canon xs (by omega)]

/-- The element-wise `Vec<Type>` decoder: head and tail both decode or the
whole list fails. -/
theorem decodeTypeList_eq : (decodeTypeList [] = some []) ∧
    ∀ x rest, decodeTypeList (x :: rest) =
    (match decodeType x with
    | some t =>
      (match decodeTypeList rest with
      | some ts => some (t :: ts)
      | none => none)
    | none => none) := by
  refine ⟨rfl, fun x rest => ?_⟩
  have hx := jsize_pos x
  have hr := jsizeList_pos rest
  have hg : jsizeList (x :: rest) = (jsize x + jsizeList rest) + 1 := by
    simp only [jsizeList]; omega
  conv_lhs => rw [decodeTypeList, hg]
  simp only [decodeTypeListF]
  rw [decodeTypeF_canon x (by omega),
    @decodeTypeListF_canon (jsize x + jsizeList rest) rest (by omega)]

/-- The `Slice` arm in terms of `getField` and the recursive `Type`
decoder. -/
theorem trySlice_eq (j : Json) : trySlice j =
    (match j with
    | .obj fs =>
      (match getField fs "slice" with
      | some v =>
        (match decodeType v with
        | some t => some (Ty.slice t)
        | none => none)
      | none => none)
    | _ => none) := by
  have h1 := jsize_pos j
  obtain ⟨g, hg⟩ : ∃ g, jsize j = g + 1 := ⟨jsize j - 1, by omega⟩
  unfold trySlice
  rw [hg]
  cases j <;> try rfl
  next fs =>
    simp only [trySliceF]
    cases h : getField fs "slice" with
    | none => rfl
    | some v =>
      dsimp only
      have hs := getField_jsize h
      rw [decodeTypeF_canon v (by omega)]

/-- The characters of a concatenation are the concatenated characters. -/
theorem str_data_append (a b : String) : (a ++ b).data = a.data ++ b.data := by
  cases a; cases b; rfl

/-- A string occurs in itself. -/
theorem containsStr_refl (s : String) : ContainsStr s s :=
  ⟨[], [], by simp⟩

/-- Occurrence is preserved by prepending. -/
theorem containsStr_append_left {n h : String} (a : String) (hc : ContainsStr n h) :
    ContainsStr n (a ++ h) := by
  obtain ⟨p, q, hh⟩ := hc
  exact ⟨a.data ++ p, q, by rw [str_data_append, hh]; simp⟩

/-- Occurrence is preserved by appending. -/
theorem containsStr_append_right {n h : String} (a : String) (hc : ContainsStr n h) :
    ContainsStr n (h ++ a) := by
  obtain ⟨p, q, hh⟩ := hc
  exact ⟨p, q ++ a.data, by rw [str_data_append, hh]; simp⟩

/-- Occurrence inside a member is preserved by joining with a separator. -/
theorem containsStr_joinSep {n s : String} (sep : String) (l : List String)
    (hmem : s ∈ l) (hc : ContainsStr n s) : ContainsStr n (joinSep sep l) := by
  induction l with
  | nil => cases hmem
  | cons x rest ih =>
    cases rest with
    | nil =>
      cases hmem with
      | head => exact hc
      | tail _ hm => cases hm
    | cons y rest₂ =>
      cases hmem with
      | head =>
        exact containsStr_append_right _ (containsStr_append_right _ hc)
      | tail _ hm =>
        exact containsStr_append_left _ (ih hm)

/-- The rendering of a tuple element is among the tuple's renderings. -/
theorem mem_typeStrings {t : Ty} {ts : List Ty} (h : t ∈ ts) :
    type_to_string t ∈ typeStrings ts := by
  induction ts with
  | nil => cases h
  | cons x rest ih =>
    cases h with
    | head => exact List.Mem.head _
    | tail _ hm => exact List.Mem.tail _ (ih hm)

/-- The rendering of a generic argument's type is among the argument
renderings. -/
theorem mem_genericArgStrings {t : Ty} {gas : List GenericArg}
    (h : GenericArg.type t ∈ gas) : type_to_string t ∈ genericArgStrings gas := by
  induction gas with
  | nil => cases h
  | cons a rest ih =>
    cases a with
    | type u =>
      cases h with
      | head => exact List.Mem.head _
      | tail _ hm => exact List.Mem.tail _ (ih hm)

/-- Claim C1, counterexample: for the JSON value in which the `borrowed_ref`
discriminator key is present but the required inner `type` field is absent,
the decoder does NOT report a decode error — it succeeds, falling back to
the `Other` (Opaque) variant, because serde's untagged decoding simply
moves on to the next variant when one fails. -/
theorem c1_counterexample :
    decodeType (Json.obj [("borrowed_ref", Json.obj [("is_mutable", Json.bool true)])])
      = some (Ty.other (Json.obj [("borrowed_ref", Json.obj [("is_mutable", Json.bool true)])])) :=
  rfl

/-- Claim C1 (amended): when the `borrowed_ref` discriminator key is
present but the structurally required inner `type` field is absent, the
`BorrowedRef` variant merely fails to match and the value decodes to the
Opaque (`Other`) fallback; no decode error is reported. -/
theorem c1_borrowed_ref_malformed_falls_back_to_opaque
    (gs : List (String × Json)) (h : getField gs "type" = none) :
    decodeType (Json.obj [("borrowed_ref", Json.obj gs)])
      = some (Ty.other (Json.obj [("borrowed_ref", Json.obj gs)])) := by
  have hbrt : decodeBorrowedRefType (Json.obj gs) = none := by
    rw [decodeBorrowedRefType_eq]
    dsimp only
    cases h1 : getField gs "is_mutable" with
    | none => rfl
    | some b =>
      cases b <;> try rfl
      next m =>
        dsimp only
        cases h2 : decodeOptStringField gs "lifetime" with
        | none => rfl
        | some lt =>
          dsimp only
          rw [h]
  have h0 : tryBorrowedRef (Json.obj [("borrowed_ref", Json.obj gs)]) = none := by
    rw [tryBorrowedRef_eq]
    simp only [getField, String.reduceEq, reduceIte, hbrt]
  have h1 : tryResolvedPath (Json.obj [("borrowed_ref", Json.obj gs)]) = none := by
    rw [tryResolvedPath_eq]
    rfl
  have h4 : tryTuple (Json.obj [("borrowed_ref", Json.obj gs)]) = none := by
    rw [tryTuple_eq]
    rfl
  have h5 : trySlice (Json.obj [("borrowed_ref", Json.obj gs)]) = none := by
    rw [trySlice_eq]
    rfl
  rw [decodeType_eq, h0, h1, h4, h5]
  rfl

/-- Claim C1, witness: the amended statement applied to the concrete
malformed value `{"borrowed_ref": {"is_mutable": true}}`. -/
theorem c1_witness :
    getField [("is_mutable", Json.bool true)] "type" = none
    ∧ decodeType (Json.obj [("borrowed_ref", Json.obj [("is_mutable", Json.bool true)])])
        = some (Ty.other (Json.obj [("borrowed_ref", Json.obj [("is_mutable", Json.bool true)])])) :=
  ⟨rfl, c1_borrowed_ref_malformed_falls_back_to_opaque [("is_mutable", Json.bool true)] rfl⟩

/-- Claim C2: the untagged decoder selects the first variant, in the fixed
order Reference, NamedPath, GenericParam, Primitive, Tuple, Slice, whose
structural decode succeeds; and a value matching none of the six decodes
to the Opaque catch-all rather than failing. -/
theorem c2_decode_first_match (j : Json) :
    (∀ i t, tryVariant i j = some t → (∀ k, k < i → tryVariant k j = none) →
      decodeType j = some t)
    ∧ ((∀ i, tryVariant i j = none) → decodeType j = some (Ty.other j)) := by
  constructor
  · intro i t hi hlt
    rcases i with _ | _ | _ | _ | _ | _ | n
    · simp only [tryVariant] at hi
      rw [decodeType_eq, hi]
    · have k0 := hlt 0 (by omega)
      simp only [tryVariant] at hi k0
      rw [decodeType_eq, k0, hi]
    · have k0 := hlt 0 (by omega)
      have k1 := hlt 1 (by omega)
      simp only [tryVariant] at hi k0 k1
      rw [decodeType_eq, k0, k1, hi]
    · have k0 := hlt 0 (by omega)
      have k1 := hlt 1 (by omega)
      have k2 := hlt 2 (by omega)
      simp only [tryVariant] at hi k0 k1 k2
      rw [decodeType_eq, k0, k1, k2, hi]
    · have k0 := hlt 0 (by omega)
      have k1 := hlt 1 (by omega)
      have k2 := hlt 2 (by omega)
      have k3 := hlt 3 (by omega)
      simp only [tryVariant] at hi k0 k1 k2 k3
      rw [decodeType_eq, k0, k1, k2, k3, hi]
    · have k0 := hlt 0 (by omega)
      have k1 := hlt 1 (by omega)
      have k2 := hlt 2 (by omega)
      have k3 := hlt 3 (by omega)
      have k4 := hlt 4 (by omega)
      simp only [tryVariant] at hi k0 k1 k2 k3 k4
      rw [decodeType_eq, k0, k1, k2, k3, k4, hi]
    · simp only [tryVariant] at hi
      exact Option.noConfusion hi
  · intro h
    have k0 := h 0
    have k1 := h 1
    have k2 := h 2
    have k3 := h 3
    have k4 := h 4
    have k5 := h 5
    simp only [tryVariant] at k0 k1 k2 k3 k4 k5
    rw [decodeType_eq, k0, k1, k2, k3, k4, k5]

/-- Claim C2, witness: a value that structurally matches both the
`BorrowedRef` variant (index 0) and the `Primitive` variant (index 3)
decodes as `BorrowedRef`, the earlier of the two. -/
theorem c2_witness :
    tryVariant 0 (Json.obj [("borrowed_ref", Json.obj [("is_mutable", Json.bool false),
        ("type", Json.obj [("primitive", Json.str "u32")])]), ("primitive", Json.str "str")])
      = some (Ty.borrowedRef false none (Ty.primitive "u32"))
    ∧ tryVariant 3 (Json.obj [("borrowed_ref", Json.obj [("is_mutable", Json.bool false),
        ("type", Json.obj [("primitive", Json.str "u32")])]), ("primitive", Json.str "str")])
      = some (Ty.primitive "str")
    ∧ decodeType (Json.obj [("borrowed_ref", Json.obj [("is_mutable", Json.bool false),
        ("type", Json.obj [("primitive", Json.str "u32")])]), ("primitive", Json.str "str")])
      = some (Ty.borrowedRef false none (Ty.primitive "u32")) := by
  refine ⟨rfl, rfl, ?_⟩
  exact (c2_decode_first_match _).1 0 (Ty.borrowedRef false none (Ty.primitive "u32")) rfl
    (fun k hk => absurd hk (by omega))

/-- Claim C3: decoding a `Type` from any JSON value succeeds — the
`Other(Value)` catch-all absorbs every value the six variants reject, so
the decoder is total and never returns an error. -/
theorem c3_decodeType_total (j : Json) :
    (∃ t, decodeType j = some t)
    ∧ ((∀ i, tryVariant i j = none) → decodeType j = some (Ty.other j)) := by
  constructor
  · rw [decodeType_eq]
    cases tryBorrowedRef j with
    | some t => exact ⟨t, rfl⟩
    | none =>
      cases tryResolvedPath j with
      | some t => exact ⟨t, rfl⟩
      | none =>
        cases tryGeneric j with
        | some t => exact ⟨t, rfl⟩
        | none =>
          cases tryPrimitive j with
          | some t => exact ⟨t, rfl⟩
          | none =>
            cases tryTuple j with
            | some t => exact ⟨t, rfl⟩
            | none =>
              cases trySlice j with
              | some t => exact ⟨t, rfl⟩
              | none => exact ⟨Ty.other j, rfl⟩
  · intro h
    have k0 := h 0
    have k1 := h 1
    have k2 := h 2
    have k3 := h 3
    have k4 := h 4
    have k5 := h 5
    simp only [tryVariant] at k0 k1 k2 k3 k4 k5
    rw [decodeType_eq, k0, k1, k2, k3, k4, k5]

/-- Claim C3, witness: the totality theorem applied to a value matching no
variant — a bare string — which lands in the Opaque catch-all. -/
theorem c3_witness :
    (∀ i, tryVariant i (Json.str "mystery") = none)
    ∧ decodeType (Json.str "mystery") = some (Ty.other (Json.str "mystery")) := by
  have h : ∀ i, tryVariant i (Json.str "mystery") = none := by
    intro i
    rcases i with _ | _ | _ | _ | _ | _ | n <;> rfl
  exact ⟨h, (c3_decodeType_total (Json.str "mystery")).2 h⟩

/-- Appending the empty string is the identity. -/
theorem str_append_empty (s : String) : s ++ "" = s := by
  apply String.ext
  rw [str_data_append]
  show s.data ++ [] = s.data
  exact List.append_nil s.data

/-- String concatenation is associative. -/
theorem str_append_assoc (a b c : String) : (a ++ b) ++ c = a ++ (b ++ c) := by
  apply String.ext
  rw [str_data_append, str_data_append, str_data_append, str_data_append]
  exact List.append_assoc a.data b.data c.data

/-- Claim C4: a signature with no return type and one returning the empty
tuple render identically, with no arrow suffix; and in general the
` -> `-suffix is appended exactly when the return type is present and its
rendering differs from the unit string `()`. -/
theorem c4_unit_return_equivalence (name : String) (inputs : List (String × Ty)) (v : Bool) :
    (function_sig_to_string name ⟨inputs, some (Ty.tuple []), v⟩
      = function_sig_to_string name ⟨inputs, none, v⟩)
    ∧ ∀ out, function_sig_to_string name ⟨inputs, some out, v⟩ =
        (if type_to_string out = "()" then function_sig_to_string name ⟨inputs, none, v⟩
         else function_sig_to_string name ⟨inputs, none, v⟩ ++ " -> " ++ type_to_string out) := by
  have hunit : type_to_string (Ty.tuple []) = "()" := rfl
  refine ⟨?_, fun out => ?_⟩
  · simp [function_sig_to_string, hunit]
  · by_cases h : type_to_string out = "()"
    · simp [function_sig_to_string, h]
    · simp [function_sig_to_string, h]

/-- Claim C5: the source's renderer produces exactly the format the
specification prescribes — `fn `, the name, the parenthesised `name: type`
parameter list joined with `, `, then only the optional return-type
suffix. -/
theorem c5_signature_format (name : String) (sig : FunctionSig) :
    function_sig_to_string name sig = specFunctionSigString name sig := by
  obtain ⟨inputs, output, v⟩ := sig
  cases output with
  | none => rfl
  | some rt =>
    by_cases h : type_to_string rt = "()"
    · simp [function_sig_to_string, specFunctionSigString, h]
    · simp [function_sig_to_string, specFunctionSigString, h]

/-- Claim C6: a reference renders as `&`, then `mut ` when mutable, then
the lifetime text and a space when present, then the referent; in
particular a mutable reference to `str` with lifetime `'a` renders as
`&mut 'a str`. -/
theorem c6_reference_rendering :
    (∀ (m : Bool) (lt : Option String) (t : Ty),
      type_to_string (Ty.borrowedRef m lt t) =
        "&" ++ (if m then "mut " else "") ++
          (match lt with
           | some l => l ++ " "
           | none => "") ++ type_to_string t)
    ∧ type_to_string (Ty.borrowedRef true (some lifetimeA) (Ty.primitive "str"))
        = "&mut " ++ lifetimeA ++ " str" := by
  constructor
  · intro m lt t
    cases lt <;> rfl
  · rfl

/-- Claim C7: a resolved path renders as the name followed by the
angle-bracketed, comma-and-space-joined generic arguments, with the angle
brackets omitted entirely when the argument list is absent or empty. -/
theorem c7_resolved_path_rendering (n : String) (cs : List String) :
    (type_to_string (Ty.resolvedPath n none) = n)
    ∧ (type_to_string (Ty.resolvedPath n (some (GenericArgs.angleBracketed [] cs))) = n)
    ∧ (∀ gas, gas ≠ [] →
        type_to_string (Ty.resolvedPath n (some (GenericArgs.angleBracketed gas cs))) =
          n ++ "<" ++ joinSep ", " (genericArgStrings gas) ++ ">") := by
  refine ⟨rfl, ?_, ?_⟩
  · show n ++ "" = n
    exact str_append_empty n
  · intro gas hgas
    cases gas with
    | nil => exact absurd rfl hgas
    | cons a rest =>
      show n ++ ("<" ++ joinSep ", " (genericArgStrings (a :: rest)) ++ ">") = _
      simp only [str_append_assoc]

/-- Claim C7, witness: `Vec` with the single generic argument `u8` renders
as `Vec<u8>`. -/
theorem c7_witness :
    ([GenericArg.type (Ty.primitive "u8")] ≠ ([] : List GenericArg))
    ∧ type_to_string (Ty.resolvedPath "Vec"
        (some (GenericArgs.angleBracketed [GenericArg.type (Ty.primitive "u8")] [])))
      = "Vec<u8>" := by
  refine ⟨by simp, ?_⟩
  have h := (c7_resolved_path_rendering "Vec" []).2.2 [GenericArg.type (Ty.primitive "u8")]
    (by simp)
  rw [h]
  rfl

/-- Claim C8: an Opaque value holding raw JSON `v` renders as the
comment-style marker `/* unknown: ` + the JSON text of `v` + ` */`, and any
type expression containing an Opaque subtree still renders to a single
string in which that marker occurs verbatim. -/
theorem c8_opaque_marker (v : Json) (t : Ty) (h : OccursIn (Ty.other v) t) :
    type_to_string (Ty.other v) = "/* unknown: " ++ jsonToString v ++ " */"
    ∧ ContainsStr ("/* unknown: " ++ jsonToString v ++ " */") (type_to_string t) := by
  refine ⟨rfl, ?_⟩
  induction h with
  | refl => exact containsStr_refl _
  | borrowedRef m lt hocc ih =>
    exact containsStr_append_left _ ih
  | slice hocc ih =>
    exact containsStr_append_right _ (containsStr_append_left _ ih)
  | tupleElem hmem hocc ih =>
    exact containsStr_append_right _
      (containsStr_append_left _ (containsStr_joinSep _ _ (mem_typeStrings hmem) ih))
  | genericArg n cs hmem hocc ih =>
    cases hmem with
    | head rest =>
      exact containsStr_append_left _ (containsStr_append_right _
        (containsStr_append_left _
          (containsStr_joinSep _ _ (mem_genericArgStrings (List.Mem.head _)) ih)))
    | tail b hm =>
      exact containsStr_append_left _ (containsStr_append_right _
        (containsStr_append_left _
          (containsStr_joinSep _ _ (mem_genericArgStrings (List.Mem.tail _ hm)) ih)))

/-- Claim C8, witness: a slice of an Opaque `null` renders with the marker
embedded at the element position. -/
theorem c8_witness :
    OccursIn (Ty.other Json.null) (Ty.slice (Ty.other Json.null))
    ∧ type_to_string (Ty.slice (Ty.other Json.null)) = "[/* unknown: null */]"
    ∧ ContainsStr ("/* unknown: " ++ jsonToString Json.null ++ " */")
        (type_to_string (Ty.slice (Ty.other Json.null))) := by
  have hocc : OccursIn (Ty.other Json.null) (Ty.slice (Ty.other Json.null)) :=
    OccursIn.slice (OccursIn.refl _)
  exact ⟨hocc, rfl, (c8_opaque_marker Json.null _ hocc).2⟩

/-- Claim C9: a value sitting at a recursive Type position — a reference's
referent, a slice's element, a tuple element, or the type of a
generic-argument entry — that itself decodes to Opaque degrades to Opaque
at that position only: the surrounding structure still decodes to its own
variant with the Opaque value embedded. -/
theorem c9_local_degradation (v : Json) (hv : decodeType v = some (Ty.other v))
    (m : Bool) (n : String) :
    decodeType (Json.obj [("borrowed_ref",
        Json.obj [("is_mutable", Json.bool m), ("type", v)])])
      = some (Ty.borrowedRef m none (Ty.other v))
    ∧ decodeType (Json.obj [("slice", v)]) = some (Ty.slice (Ty.other v))
    ∧ (∀ vs ts, decodeTypeList vs = some ts →
        decodeType (Json.obj [("tuple", Json.arr (v :: vs))])
          = some (Ty.tuple (Ty.other v :: ts)))
    ∧ decodeType (Json.obj [("resolved_path", Json.obj [("name", Json.str n),
        ("args", Json.obj [("angle_bracketed", Json.obj [("args",
          Json.arr [Json.obj [("type", v)]])])])])])
      = some (Ty.resolvedPath n
          (some (GenericArgs.angleBracketed [GenericArg.type (Ty.other v)] []))) := by
  refine ⟨?_, ?_, ?_, ?_⟩
  · -- referent position
    have hbr : tryBorrowedRef (Json.obj [("borrowed_ref",
        Json.obj [("is_mutable", Json.bool m), ("type", v)])])
        = some (Ty.borrowedRef m none (Ty.other v)) := by
      rw [tryBorrowedRef_eq]
      simp only [getField, String.reduceEq, reduceIte]
      rw [decodeBorrowedRefType_eq]
      simp only [getField, decodeOptStringField, String.reduceEq, reduceIte, hv]
    rw [decodeType_eq, hbr]
  · -- slice element position
    have h0 : tryBorrowedRef (Json.obj [("slice", v)]) = none := by
      rw [tryBorrowedRef_eq]; rfl
    have h1 : tryResolvedPath (Json.obj [("slice", v)]) = none := by
      rw [tryResolvedPath_eq]; rfl
    have h4 : tryTuple (Json.obj [("slice", v)]) = none := by
      rw [tryTuple_eq]; rfl
    have h5 : trySlice (Json.obj [("slice", v)]) = some (Ty.slice (Ty.other v)) := by
      rw [trySlice_eq]
      simp only [getField, String.reduceEq, reduceIte, hv]
    rw [decodeType_eq, h0, h1, h4, h5]
    rfl
  · -- tuple element position
    intro vs ts hts
    have h0 : tryBorrowedRef (Json.obj [("tuple", Json.arr (v :: vs))]) = none := by
      rw [tryBorrowedRef_eq]; rfl
    have h1 : tryResolvedPath (Json.obj [("tuple", Json.arr (v :: vs))]) = none := by
      rw [tryResolvedPath_eq]; rfl
    have h4 : tryTuple (Json.obj [("tuple", Json.arr (v :: vs))])
        = some (Ty.tuple (Ty.other v :: ts)) := by
      rw [tryTuple_eq]
      simp only [getField, String.reduceEq, reduceIte, decodeTypeList_eq, hv, hts]
    rw [decodeType_eq, h0, h1, h4]
    rfl
  · -- generic-argument type position
    have h0 : tryBorrowedRef (Json.obj [("resolved_path", Json.obj [("name", Json.str n),
        ("args", Json.obj [("angle_bracketed", Json.obj [("args",
          Json.arr [Json.obj [("type", v)]])])])])]) = none := by
      rw [tryBorrowedRef_eq]; rfl
    have hrp : tryResolvedPath (Json.obj [("resolved_path", Json.obj [("name", Json.str n),
        ("args", Json.obj [("angle_bracketed", Json.obj [("args",
          Json.arr [Json.obj [("type", v)]])])])])])
        = some (Ty.resolvedPath n
            (some (GenericArgs.angleBracketed [GenericArg.type (Ty.other v)] []))) := by
      rw [tryResolvedPath_eq]
      simp only [getField, String.reduceEq, reduceIte]
      rw [decodeResolvedPath_eq]
      simp only [getField, String.reduceEq, reduceIte, decodeGenericArgs_eq,
        decodeAngleBracketedArgs_eq, decodeConstraints, decodeGenericArgList_eq,
        decodeGenericArg_eq, hv]
    rw [decodeType_eq, h0, hrp]

/-- Claim C9, witness: the number `42` matches no variant and becomes
Opaque, locally, inside a slice and inside a singleton tuple. -/
theorem c9_witness :
    decodeType (Json.num 42) = some (Ty.other (Json.num 42))
    ∧ decodeType (Json.obj [("slice", Json.num 42)])
        = some (Ty.slice (Ty.other (Json.num 42)))
    ∧ decodeType (Json.obj [("tuple", Json.arr [Json.num 42])])
        = some (Ty.tuple [Ty.other (Json.num 42)]) := by
  have hv : decodeType (Json.num 42) = some (Ty.other (Json.num 42)) := rfl
  have h := c9_local_degradation (Json.num 42) hv true "T"
  exact ⟨hv, h.2.1, h.2.2.1 [] [] rfl⟩

/-- Claim C10: the `is_c_variadic` flag has no effect on rendering — two
signatures differing only in that flag render to the same string. -/
theorem c10_variadic_flag_unused (name : String) (inputs : List (String × Ty))
    (output : Option Ty) (b₁ b₂ : Bool) :
    function_sig_to_string name ⟨inputs, output, b₁⟩
      = function_sig_to_string name ⟨inputs, output, b₂⟩ := rfl
